import Mathlib

set_option maxRecDepth 4000
/-! ## Big-endian 32-bit conversions -/

/-- `int.from_bytes(bs, "big")`: big-endian interpretation of a byte list. -/
def be32 (bs : List Nat) : Nat :=
  bs.foldl (fun a b => a * 256 + b) 0

/-- `n.to_bytes(4, "big")`: the four big-endian bytes of `n`, or `none`
when `n` does not fit in 32 bits (Python raises `OverflowError`). -/
def to_bytes4 (n : Nat) : Option (List Nat) :=
  if n < 4294967296 then
    some [n / 16777216 % 256, n / 65536 % 256, n / 256 % 256, n % 256]
  else none

/-- The four big-endian bytes of a value known to fit in 32 bits
(the total companion of `to_bytes4`, used to state serializations). -/
def bytes4 (n : Nat) : List Nat :=
  [n / 16777216 % 256, n / 65536 % 256, n / 256 % 256, n % 256]

/-! ## CRC-32 (`binascii.crc32`, polynomial 0xEDB88320) -/

/-- The bit-reversed CRC-32 polynomial. -/
def crcPoly : Nat := 0xEDB88320

/-- One bit step of CRC-32: shift right, conditionally xor the polynomial. -/
def crcBitStep (s : Nat) : Nat :=
  if s % 2 = 1 then (s / 2) ^^^ crcPoly else s / 2

/-- One byte step of CRC-32: xor the byte into the state, then 8 bit steps. -/
def crcByteStep (s b : Nat) : Nat :=
  crcBitStep^[8] (s ^^^ b)

/-- `binascii.crc32(bs)`: fold byte steps from `0xFFFFFFFF`, final complement. -/
def crc32 (bs : List Nat) : Nat :=
  (bs.foldl crcByteStep 0xFFFFFFFF) ^^^ 0xFFFFFFFF

/-- `compute_crc(type_bytes, data)`: CRC-32 of chunk type + chunk data,
masked with `0xFFFFFFFF` (modelled as `% 4294967296`). -/
def compute_crc (type_bytes data : List Nat) : Nat :=
  crc32 (type_bytes ++ data) % 4294967296

/-! ## ASCII decoding / encoding of chunk types -/

/-- `bytes.decode("ascii", errors="replace")`: bytes below 128 become the
corresponding character, all others become U+FFFD. -/
def decodeAsciiReplace (bs : List Nat) : String :=
  String.mk (bs.map (fun b => if b < 128 then Char.ofNat b else Char.ofNat 65533))

/-- `str.encode("ascii")`: succeeds iff every character is below 128
(Python raises `UnicodeEncodeError` otherwise). -/
def encodeAscii (s : String) : Option (List Nat) :=
  if s.data.all (fun c => c.toNat < 128) then some (s.data.map Char.toNat) else none

/-! ## The chunk data model and the error taxonomy -/

/-- `PNGChunk`: declared length, decoded 4-character type, data, stored CRC. -/
structure PNGChunk where
  length : Nat
  type : String
  data : List Nat
  crc : Nat
  deriving DecidableEq, Repr

/-- Which of the four chunk fields a short read happened in. -/
inductive FieldKind where
  | lenField
  | typeField
  | dataField
  | crcField
  deriving DecidableEq, Repr

/-- Reader errors, one constructor per `ValueError` template of the source:
bad signature; short read in a field (the message names the chunk type only
for the data and CRC fields); CRC mismatch carrying expected and stored. -/
inductive ReadError where
  | formatError
  | truncation (field : FieldKind) (chunkType : Option String)
  | crcMismatch (chunkType : String) (expected stored : Nat)
  deriving DecidableEq, Repr

/-- Writer failures: a chunk type that cannot be encoded as ASCII
(`UnicodeEncodeError`), or a length/CRC not fitting 4 bytes (`OverflowError`). -/
inductive WriteError where
  | encodeError (chunkType : String)
  | lengthOverflow
  | crcOverflow
  deriving DecidableEq, Repr

/-- The fixed 8-byte PNG signature `b"\x89PNG\r\n\x1a\n"`. -/
def PNG_SIGNATURE : List Nat := [137, 80, 78, 71, 13, 10, 26, 10]

/-! ## The reader -/

/-- The chunk loop of `read_png_chunks`: repeatedly read a 4-byte big-endian
length, a 4-byte type (decoded as ASCII with replacement), `length` data
bytes and a 4-byte big-endian CRC, checking the CRC; stop successfully on
zero bytes at a chunk boundary. -/
def readChunksLoop (s : List Nat) : Except ReadError (List PNGChunk) :=
  if h0 : s = [] then .ok []
  else if s.length < 4 then .error (.truncation .lenField none)
  else if (s.drop 4).length < 4 then .error (.truncation .typeField none)
  else if ((s.drop 4).drop 4).length < be32 (s.take 4) then
    .error (.truncation .dataField (some (decodeAsciiReplace ((s.drop 4).take 4))))
  else if (((s.drop 4).drop 4).drop (be32 (s.take 4))).length < 4 then
    .error (.truncation .crcField (some (decodeAsciiReplace ((s.drop 4).take 4))))
  else if be32 ((((s.drop 4).drop 4).drop (be32 (s.take 4))).take 4) ≠
      compute_crc ((s.drop 4).take 4) (((s.drop 4).drop 4).take (be32 (s.take 4))) then
    .error (.crcMismatch (decodeAsciiReplace ((s.drop 4).take 4))
      (compute_crc ((s.drop 4).take 4) (((s.drop 4).drop 4).take (be32 (s.take 4))))
      (be32 ((((s.drop 4).drop 4).drop (be32 (s.take 4))).take 4)))
  else
    (readChunksLoop ((((s.drop 4).drop 4).drop (be32 (s.take 4))).drop 4)).map
      (fun cs =>
        { length := be32 (s.take 4)
          type := decodeAsciiReplace ((s.drop 4).take 4)
          data := ((s.drop 4).drop 4).take (be32 (s.take 4))
          crc := be32 ((((s.drop 4).drop 4).drop (be32 (s.take 4))).take 4) } :: cs)
termination_by s.length
decreasing_by
  have hpos : 0 < s.length := List.length_pos.mpr h0
  simp only [List.length_drop]
  omega

/-- `read_png_chunks`: check the 8-byte signature, then run the chunk loop
on the remaining bytes. -/
def read_png_chunks (s : List Nat) : Except ReadError (List PNGChunk) :=
  if s.take 8 = PNG_SIGNATURE then readChunksLoop (s.drop 8)
  else .error .formatError

/-! ## The writer -/

/-- Serialize one chunk: 4-byte big-endian length, ASCII-encoded type,
raw data, 4-byte big-endian stored CRC (never recomputed). -/
def writeChunkBytes (c : PNGChunk) : Except WriteError (List Nat) :=
  match to_bytes4 c.length with
  | none => .error .lengthOverflow
  | some lb =>
    match encodeAscii c.type with
    | none => .error (.encodeError c.type)
    | some tbs =>
      match to_bytes4 c.crc with
      | none => .error .crcOverflow
      | some cb => .ok (lb ++ tbs ++ c.data ++ cb)

/-- Serialize a chunk list in order, stopping at the first failure. -/
def writeChunksLoop : List PNGChunk → Except WriteError (List Nat)
  | [] => .ok []
  | c :: cs =>
    match writeChunkBytes c with
    | .error e => .error e
    | .ok bs =>
      match writeChunksLoop cs with
      | .error e => .error e
      | .ok rest => .ok (bs ++ rest)

/-- `write_png_chunks`: the PNG signature followed by each chunk's
serialization; the returned byte list's length is the written file size. -/
def write_png_chunks (cs : List PNGChunk) : Except WriteError (List Nat) :=
  (writeChunksLoop cs).map (fun body => PNG_SIGNATURE ++ body)

/-! ## The filter -/

/-- Chunks that must be preserved as core image data. -/
def CORE_CHUNKS : List String := ["IHDR", "PLTE", "IDAT", "IEND"]

/-- Chunk types to drop (metadata). -/
def DROP_CHUNKS : List String := ["tEXt", "zTXt", "iTXt", "tIME", "pHYs", "gAMA"]

/-- `filter_chunks`: keep core chunks, drop known metadata chunks, keep
everything else; returns the kept chunks in order and the removed count. -/
def filter_chunks : List PNGChunk → List PNGChunk × Nat
  | [] => ([], 0)
  | c :: cs =>
    let r := filter_chunks cs
    if c.type ∈ CORE_CHUNKS then (c :: r.1, r.2)
    else if c.type ∈ DROP_CHUNKS then (r.1, r.2 + 1)
    else (c :: r.1, r.2)

/-! ## Raw chunks (spec-level view of a serialized stream) -/

structure RawChunk where
  tb : List Nat
  data : List Nat
  crc : Nat
  deriving DecidableEq, Repr

def rawBytes (rc : RawChunk) : List Nat :=
  bytes4 rc.data.length ++ rc.tb ++ rc.data ++ bytes4 rc.crc

def ValidRaw (rc : RawChunk) : Prop :=
  rc.tb.length = 4 ∧ rc.data.length < 4294967296 ∧ rc.crc = compute_crc rc.tb rc.data

def toChunk (rc : RawChunk) : PNGChunk :=
  { length := rc.data.length
    type := decodeAsciiReplace rc.tb
    data := rc.data
    crc := rc.crc }

def serializePNG (rcs : List RawChunk) : List Nat :=
  PNG_SIGNATURE ++ (rcs.map rawBytes).flatten

/-- Well-formedness of a raw chunk together with byte bounds. -/
def GoodRaw (rc : RawChunk) : Prop :=
  ValidRaw rc ∧ (∀ b ∈ rc.tb, b < 256) ∧ (∀ b ∈ rc.data, b < 256)

/-! ## Classification (claim C9) -/

inductive ChunkClass where
  | core
  | drop
  | passThrough
  deriving DecidableEq, Repr

/-- The three-way decision `filter_chunks` takes, phrased on the decoded
type string exactly as the code tests it. -/
def classifyType (t : String) : ChunkClass :=
  if t ∈ CORE_CHUNKS then .core else if t ∈ DROP_CHUNKS then .drop else .passThrough

/-- Modelled from the spec: the raw byte encodings of `CORE_CHUNKS`. -/
def CORE_CHUNK_BYTES : List (List Nat) :=
  [[73, 72, 68, 82], [80, 76, 84, 69], [73, 68, 65, 84], [73, 69, 78, 68]]

/-- Modelled from the spec: the raw byte encodings of `DROP_CHUNKS`. -/
def DROP_CHUNK_BYTES : List (List Nat) :=
  [[116, 69, 88, 116], [122, 84, 88, 116], [105, 84, 88, 116], [116, 73, 77, 69],
   [112, 72, 89, 115], [103, 65, 77, 65]]

/-- Modelled from the spec: classification by raw 4-byte equality against
constant byte arrays, as section 9 of the spec recommends. -/
def classifyRawType (tb : List Nat) : ChunkClass :=
  if tb ∈ CORE_CHUNK_BYTES then .core else if tb ∈ DROP_CHUNK_BYTES then .drop
  else .passThrough


lemma length_bytes4 (n : Nat) : (bytes4 n).length = 4 := rfl

lemma be32_bytes4 (n : Nat) (h : n < 4294967296) : be32 (bytes4 n) = n := by
  simp only [be32, bytes4, List.foldl]
  omega

lemma compute_crc_lt (tb data : List Nat) : compute_crc tb data < 4294967296 := by
  exact Nat.mod_lt _ (by norm_num)

lemma readChunksLoop_nil : readChunksLoop [] = .ok [] := by
  rw [readChunksLoop]
  simp

lemma readChunksLoop_step (tb data : List Nat) (crcv : Nat) (rest : List Nat)
    (htb : tb.length = 4) (hn : data.length < 4294967296)
    (hc : crcv < 4294967296) :
    readChunksLoop (bytes4 data.length ++ (tb ++ (data ++ (bytes4 crcv ++ rest)))) =
      if crcv ≠ compute_crc tb data then
        .error (.crcMismatch (decodeAsciiReplace tb) (compute_crc tb data) crcv)
      else
        (readChunksLoop rest).map (fun cs => toChunk ⟨tb, data, crcv⟩ :: cs) := by
  rw [readChunksLoop]
  rw [List.take_left' (length_bytes4 _), List.drop_left' (length_bytes4 _)]
  rw [List.take_left' htb, List.drop_left' htb]
  rw [be32_bytes4 _ hn]
  rw [List.take_left' (rfl : data.length = data.length),
    List.drop_left' (rfl : data.length = data.length)]
  rw [List.take_left' (length_bytes4 _), List.drop_left' (length_bytes4 _)]
  rw [be32_bytes4 _ hc]
  have hne : bytes4 data.length ++ (tb ++ (data ++ (bytes4 crcv ++ rest))) ≠ [] := by
    simp [bytes4]
  have hlen : ¬ (bytes4 data.length ++ (tb ++ (data ++ (bytes4 crcv ++ rest)))).length < 4 := by
    simp [bytes4]
  have hlen2 : ¬ (tb ++ (data ++ (bytes4 crcv ++ rest))).length < 4 := by
    simp [htb]
  have hlen3 : ¬ (data ++ (bytes4 crcv ++ rest)).length < data.length := by
    simp
  have hlen4 : ¬ (bytes4 crcv ++ rest).length < 4 := by
    simp [bytes4]
  rw [dif_neg hne, if_neg hlen, if_neg hlen2, if_neg hlen3, if_neg hlen4]
  rfl

/-! ## CRC-32 single-byte error detection -/

lemma crcPoly_testBit : Nat.testBit crcPoly 31 = true := by decide

lemma crcBitStep_lt {a : Nat} (h : a < 2 ^ 32) : crcBitStep a < 2 ^ 32 := by
  unfold crcBitStep
  split
  · exact Nat.xor_lt_two_pow (by omega) (by norm_num [crcPoly])
  · omega

lemma crcBitStep_inj {a b : Nat} (ha : a < 2 ^ 32) (hb : b < 2 ^ 32)
    (h : crcBitStep a = crcBitStep b) : a = b := by
  unfold crcBitStep at h
  rcases Nat.mod_two_eq_zero_or_one a with hpa | hpa <;>
    rcases Nat.mod_two_eq_zero_or_one b with hpb | hpb
  · rw [if_neg (by omega), if_neg (by omega)] at h
    omega
  · rw [if_neg (by omega), if_pos hpb] at h
    have hbit := congrArg (fun x => Nat.testBit x 31) h
    simp only [Nat.testBit_xor] at hbit
    rw [Nat.testBit_lt_two_pow (x := a / 2) (by omega),
      Nat.testBit_lt_two_pow (x := b / 2) (by omega), crcPoly_testBit] at hbit
    simp at hbit
  · rw [if_pos hpa, if_neg (by omega)] at h
    have hbit := congrArg (fun x => Nat.testBit x 31) h
    simp only [Nat.testBit_xor] at hbit
    rw [Nat.testBit_lt_two_pow (x := a / 2) (by omega),
      Nat.testBit_lt_two_pow (x := b / 2) (by omega), crcPoly_testBit] at hbit
    simp at hbit
  · rw [if_pos hpa, if_pos hpb] at h
    have h2 : a / 2 = b / 2 := by
      have := congrArg (fun x => x ^^^ crcPoly) h
      simpa [Nat.xor_cancel_right] using this
    omega

lemma crcIter_lt {a : Nat} (k : Nat) (h : a < 2 ^ 32) : crcBitStep^[k] a < 2 ^ 32 := by
  induction k generalizing a with
  | zero => simpa using h
  | succ k ih =>
    rw [Function.iterate_succ_apply]
    exact ih (crcBitStep_lt h)

lemma crcIter_inj {a b : Nat} (k : Nat) (ha : a < 2 ^ 32) (hb : b < 2 ^ 32)
    (h : crcBitStep^[k] a = crcBitStep^[k] b) : a = b := by
  induction k generalizing a b with
  | zero => simpa using h
  | succ k ih =>
    rw [Function.iterate_succ_apply, Function.iterate_succ_apply] at h
    exact crcBitStep_inj ha hb (ih (crcBitStep_lt ha) (crcBitStep_lt hb) h)

lemma crcByteStep_lt {s b : Nat} (hs : s < 2 ^ 32) (hb : b < 256) :
    crcByteStep s b < 2 ^ 32 := by
  unfold crcByteStep
  exact crcIter_lt 8 (Nat.xor_lt_two_pow hs (by omega))

lemma crcByteStep_inj_state {s t b : Nat} (hs : s < 2 ^ 32) (ht : t < 2 ^ 32)
    (hb : b < 256) (h : crcByteStep s b = crcByteStep t b) : s = t := by
  unfold crcByteStep at h
  have := crcIter_inj 8 (Nat.xor_lt_two_pow hs (by omega))
    (Nat.xor_lt_two_pow ht (by omega)) h
  have h2 := congrArg (fun x => x ^^^ b) this
  simpa [Nat.xor_cancel_right] using h2

lemma crcByteStep_inj_byte {s b c : Nat} (hs : s < 2 ^ 32) (hb : b < 256)
    (hc : c < 256) (h : crcByteStep s b = crcByteStep s c) : b = c := by
  unfold crcByteStep at h
  have := crcIter_inj 8 (Nat.xor_lt_two_pow hs (by omega))
    (Nat.xor_lt_two_pow hs (by omega)) h
  have h2 := congrArg (fun x => s ^^^ x) (by simpa [Nat.xor_comm] using this)
  simpa [← Nat.xor_assoc, Nat.xor_self, Nat.zero_xor] using h2

lemma crcFold_lt {s : Nat} {l : List Nat} (hs : s < 2 ^ 32)
    (hl : ∀ b ∈ l, b < 256) : l.foldl crcByteStep s < 2 ^ 32 := by
  induction l generalizing s with
  | nil => simpa using hs
  | cons x xs ih =>
    simp only [List.foldl_cons]
    exact ih (crcByteStep_lt hs (hl x (by simp))) (fun b hb => hl b (by simp [hb]))

lemma crcFold_inj_state {s t : Nat} {l : List Nat} (hs : s < 2 ^ 32) (ht : t < 2 ^ 32)
    (hl : ∀ b ∈ l, b < 256) (h : l.foldl crcByteStep s = l.foldl crcByteStep t) :
    s = t := by
  induction l generalizing s t with
  | nil => simpa using h
  | cons x xs ih =>
    simp only [List.foldl_cons] at h
    have hx := hl x (by simp)
    exact crcByteStep_inj_state hs ht hx
      (ih (crcByteStep_lt hs hx) (crcByteStep_lt ht hx) (fun b hb => hl b (by simp [hb])) h)

/-- CRC-32 detects any single-byte substitution. -/
lemma crc32_single_byte {pre suf : List Nat} {x y : Nat}
    (hpre : ∀ b ∈ pre, b < 256) (hsuf : ∀ b ∈ suf, b < 256)
    (hx : x < 256) (hy : y < 256) (hxy : x ≠ y) :
    crc32 (pre ++ x :: suf) ≠ crc32 (pre ++ y :: suf) := by
  intro h
  unfold crc32 at h
  have hfold : (pre ++ x :: suf).foldl crcByteStep 0xFFFFFFFF =
      (pre ++ y :: suf).foldl crcByteStep 0xFFFFFFFF := by
    have := congrArg (fun v => v ^^^ 0xFFFFFFFF) h
    simpa [Nat.xor_cancel_right] using this
  rw [List.foldl_append, List.foldl_append, List.foldl_cons, List.foldl_cons] at hfold
  have hs : pre.foldl crcByteStep 0xFFFFFFFF < 2 ^ 32 :=
    crcFold_lt (by norm_num) hpre
  have hstep : crcByteStep (pre.foldl crcByteStep 0xFFFFFFFF) x =
      crcByteStep (pre.foldl crcByteStep 0xFFFFFFFF) y :=
    crcFold_inj_state (crcByteStep_lt hs hx) (crcByteStep_lt hs hy) hsuf hfold
  exact hxy (crcByteStep_inj_byte hs hx hy hstep)

lemma crc32_lt {l : List Nat} (hl : ∀ b ∈ l, b < 256) : crc32 l < 2 ^ 32 :=
  Nat.xor_lt_two_pow (crcFold_lt (by norm_num) hl) (by norm_num)

lemma compute_crc_eq_crc32 {tb data : List Nat} (htb : ∀ b ∈ tb, b < 256)
    (hd : ∀ b ∈ data, b < 256) : compute_crc tb data = crc32 (tb ++ data) := by
  unfold compute_crc
  have : crc32 (tb ++ data) < 2 ^ 32 := by
    refine crc32_lt fun b hb => ?_
    rcases List.mem_append.mp hb with h | h
    · exact htb b h
    · exact hd b h
  omega

/-- `compute_crc` detects any single-byte substitution in the data. -/
lemma compute_crc_single_byte {tb dpre dsuf : List Nat} {x y : Nat}
    (htb : ∀ b ∈ tb, b < 256) (hpre : ∀ b ∈ dpre, b < 256) (hsuf : ∀ b ∈ dsuf, b < 256)
    (hx : x < 256) (hy : y < 256) (hxy : x ≠ y) :
    compute_crc tb (dpre ++ x :: dsuf) ≠ compute_crc tb (dpre ++ y :: dsuf) := by
  have hmem : ∀ b ∈ tb ++ dpre, b < 256 := by
    intro b hb
    rcases List.mem_append.mp hb with h | h
    · exact htb b h
    · exact hpre b h
  rw [compute_crc_eq_crc32 htb (by
        intro b hb
        rcases List.mem_append.mp hb with h | h
        · exact hpre b h
        · rcases List.mem_cons.mp h with h | h
          · omega
          · exact hsuf b h),
      compute_crc_eq_crc32 htb (by
        intro b hb
        rcases List.mem_append.mp hb with h | h
        · exact hpre b h
        · rcases List.mem_cons.mp h with h | h
          · omega
          · exact hsuf b h)]
  rw [← List.append_assoc, ← List.append_assoc]
  exact crc32_single_byte hmem hsuf hx hy hxy

/-! ## Reader lemmas -/

lemma readChunksLoop_valid_cons (rc : RawChunk) (rest : List Nat) (h : ValidRaw rc) :
    readChunksLoop (rawBytes rc ++ rest) =
      (readChunksLoop rest).map (fun cs => toChunk rc :: cs) := by
  obtain ⟨htb, hlen, hcrc⟩ := h
  have hgrp : rawBytes rc ++ rest =
      bytes4 rc.data.length ++ (rc.tb ++ (rc.data ++ (bytes4 rc.crc ++ rest))) := by
    simp [rawBytes, List.append_assoc]
  rw [hgrp, readChunksLoop_step rc.tb rc.data rc.crc rest htb hlen
    (by rw [hcrc]; exact compute_crc_lt _ _)]
  rw [if_neg (by simp [hcrc])]

lemma readChunksLoop_serialized (rcs : List RawChunk) (h : ∀ rc ∈ rcs, ValidRaw rc) :
    readChunksLoop (rcs.map rawBytes).flatten = .ok (rcs.map toChunk) := by
  induction rcs with
  | nil => simpa using readChunksLoop_nil
  | cons rc rcs ih =>
    simp only [List.map_cons, List.flatten_cons]
    rw [readChunksLoop_valid_cons rc _ (h rc (by simp))]
    rw [ih (fun x hx => h x (by simp [hx]))]
    rfl

lemma readChunksLoop_trunc_len (t : List Nat) (h0 : t ≠ []) (h4 : t.length < 4) :
    readChunksLoop t = .error (.truncation .lenField none) := by
  rw [readChunksLoop, dif_neg h0, if_pos h4]

lemma readChunksLoop_trunc_type (n : Nat) (t : List Nat) (h4 : t.length < 4) :
    readChunksLoop (bytes4 n ++ t) = .error (.truncation .typeField none) := by
  rw [readChunksLoop]
  rw [List.drop_left' (length_bytes4 n)]
  rw [dif_neg (by simp [bytes4]), if_neg (by simp [bytes4]), if_pos h4]

lemma readChunksLoop_trunc_data (tb t : List Nat) (htb : tb.length = 4)
    (n : Nat) (hn : n < 4294967296) (ht : t.length < n) :
    readChunksLoop (bytes4 n ++ (tb ++ t)) =
      .error (.truncation .dataField (some (decodeAsciiReplace tb))) := by
  rw [readChunksLoop]
  rw [List.take_left' (length_bytes4 n), List.drop_left' (length_bytes4 n)]
  rw [List.take_left' htb, List.drop_left' htb]
  rw [be32_bytes4 n hn]
  rw [dif_neg (by simp [bytes4]), if_neg (by simp [bytes4]), if_neg (by simp [htb]),
    if_pos ht]

lemma readChunksLoop_trunc_crc (tb data t : List Nat) (htb : tb.length = 4)
    (hn : data.length < 4294967296) (ht : t.length < 4) :
    readChunksLoop (bytes4 data.length ++ (tb ++ (data ++ t))) =
      .error (.truncation .crcField (some (decodeAsciiReplace tb))) := by
  rw [readChunksLoop]
  rw [List.take_left' (length_bytes4 _), List.drop_left' (length_bytes4 _)]
  rw [List.take_left' htb, List.drop_left' htb]
  rw [be32_bytes4 _ hn]
  rw [List.take_left' (rfl : data.length = data.length),
    List.drop_left' (rfl : data.length = data.length)]
  rw [dif_neg (by simp [bytes4]), if_neg (by simp [bytes4]), if_neg (by simp [htb]),
    if_neg (by simp), if_pos ht]

lemma bytes4_be32 (bs : List Nat) (h4 : bs.length = 4) (hb : ∀ b ∈ bs, b < 256) :
    bytes4 (be32 bs) = bs := by
  rcases bs with _ | ⟨a, bs⟩; · simp at h4
  rcases bs with _ | ⟨b, bs⟩; · simp at h4
  rcases bs with _ | ⟨c, bs⟩; · simp at h4
  rcases bs with _ | ⟨d, bs⟩; · simp at h4
  rcases bs with _ | ⟨e, bs⟩
  · have ha := hb a (by simp)
    have hb2 := hb b (by simp)
    have hc2 := hb c (by simp)
    have hd2 := hb d (by simp)
    simp only [be32, bytes4, List.foldl_cons, List.foldl_nil, List.cons.injEq, and_true]
    omega
  · simp at h4

lemma be32_lt (bs : List Nat) (h4 : bs.length = 4) (hb : ∀ b ∈ bs, b < 256) :
    be32 bs < 4294967296 := by
  rcases bs with _ | ⟨a, bs⟩; · simp at h4
  rcases bs with _ | ⟨b, bs⟩; · simp at h4
  rcases bs with _ | ⟨c, bs⟩; · simp at h4
  rcases bs with _ | ⟨d, bs⟩; · simp at h4
  rcases bs with _ | ⟨e, bs⟩
  · have ha := hb a (by simp)
    have hb2 := hb b (by simp)
    have hc2 := hb c (by simp)
    have hd2 := hb d (by simp)
    simp only [be32, List.foldl_cons, List.foldl_nil]
    omega
  · simp at h4

lemma readChunksLoop_sound_aux (N : Nat) :
    ∀ s : List Nat, s.length ≤ N → ∀ cs, (∀ b ∈ s, b < 256) →
      readChunksLoop s = .ok cs →
      ∃ rcs : List RawChunk,
        s = (rcs.map rawBytes).flatten ∧ cs = rcs.map toChunk ∧ ∀ rc ∈ rcs, GoodRaw rc := by
  induction N with
  | zero =>
    intro s hlen cs hb h
    have hnil : s = [] := List.eq_nil_of_length_eq_zero (by omega)
    subst hnil
    rw [readChunksLoop_nil] at h
    refine ⟨[], by simp, ?_, by simp⟩
    simpa using h.symm
  | succ N ih =>
    intro s hlen cs hb h
    by_cases h0 : s = []
    · subst h0
      rw [readChunksLoop_nil] at h
      refine ⟨[], by simp, ?_, by simp⟩
      simpa using h.symm
    rw [readChunksLoop, dif_neg h0] at h
    by_cases g1 : s.length < 4
    · rw [if_pos g1] at h; simp at h
    rw [if_neg g1] at h
    by_cases g2 : (s.drop 4).length < 4
    · rw [if_pos g2] at h; simp at h
    rw [if_neg g2] at h
    by_cases g3 : ((s.drop 4).drop 4).length < be32 (s.take 4)
    · rw [if_pos g3] at h; simp at h
    rw [if_neg g3] at h
    by_cases g4 : (((s.drop 4).drop 4).drop (be32 (s.take 4))).length < 4
    · rw [if_pos g4] at h; simp at h
    rw [if_neg g4] at h
    by_cases g5 : be32 ((((s.drop 4).drop 4).drop (be32 (s.take 4))).take 4) ≠
        compute_crc ((s.drop 4).take 4) (((s.drop 4).drop 4).take (be32 (s.take 4)))
    · rw [if_pos g5] at h; simp at h
    rw [if_neg g5] at h
    push_neg at g5
    set n := be32 (s.take 4) with hn
    simp only [List.length_drop] at g2 g3 g4
    have hpos : 0 < s.length := List.length_pos.mpr h0
    cases hr : readChunksLoop ((((s.drop 4).drop 4).drop n).drop 4) with
    | error e => rw [hr] at h; simp [Except.map] at h
    | ok cs2 =>
      rw [hr] at h
      simp only [Except.map, Except.ok.injEq] at h
      have hrestlen : ((((s.drop 4).drop 4).drop n).drop 4).length ≤ N := by
        simp only [List.length_drop]
        omega
      have hrestb : ∀ b ∈ (((s.drop 4).drop 4).drop n).drop 4, b < 256 := by
        intro b hmem
        exact hb b (List.drop_subset _ _ (List.drop_subset _ _
          (List.drop_subset _ _ (List.drop_subset _ _ hmem))))
      obtain ⟨rcs2, hs2, hcs2, hgood2⟩ := ih _ hrestlen cs2 hrestb hr
      have hlb4 : (s.take 4).length = 4 := by
        simp only [List.length_take]
        omega
      have hlbbytes : ∀ b ∈ s.take 4, b < 256 := fun b hmem => hb b (List.take_subset _ _ hmem)
      have htb4 : ((s.drop 4).take 4).length = 4 := by
        simp only [List.length_take, List.length_drop]
        omega
      have htbbytes : ∀ b ∈ (s.drop 4).take 4, b < 256 :=
        fun b hmem => hb b (List.drop_subset _ _ (List.take_subset _ _ hmem))
      have hdatalen : (((s.drop 4).drop 4).take n).length = n := by
        simp only [List.length_take, List.length_drop] at g3 ⊢
        omega
      have hdatabytes : ∀ b ∈ ((s.drop 4).drop 4).take n, b < 256 :=
        fun b hmem => hb b (List.drop_subset _ _ (List.drop_subset _ _
          (List.take_subset _ _ hmem)))
      have hcb4 : ((((s.drop 4).drop 4).drop n).take 4).length = 4 := by
        simp only [List.length_take, List.length_drop] at g4 ⊢
        omega
      have hcbbytes : ∀ b ∈ (((s.drop 4).drop 4).drop n).take 4, b < 256 :=
        fun b hmem => hb b (List.drop_subset _ _ (List.drop_subset _ _
          (List.drop_subset _ _ (List.take_subset _ _ hmem))))
      refine ⟨⟨(s.drop 4).take 4, ((s.drop 4).drop 4).take n,
        be32 ((((s.drop 4).drop 4).drop n).take 4)⟩ :: rcs2, ?_, ?_, ?_⟩
      · simp only [List.map_cons, List.flatten_cons]
        have hsplit : s = s.take 4 ++ ((s.drop 4).take 4 ++ (((s.drop 4).drop 4).take n ++
            (((((s.drop 4).drop 4).drop n).take 4) ++ ((((s.drop 4).drop 4).drop n).drop 4)))) := by
          simp only [List.take_append_drop]
        have e1 : bytes4 n = s.take 4 := by
          rw [hn]
          exact bytes4_be32 _ hlb4 hlbbytes
        have e2 : bytes4 (be32 ((((s.drop 4).drop 4).drop n).take 4)) =
            (((s.drop 4).drop 4).drop n).take 4 :=
          bytes4_be32 _ hcb4 hcbbytes
        rw [← hs2]
        conv_lhs => rw [hsplit]
        simp only [rawBytes, List.append_assoc]
        rw [hdatalen, e1, e2]
      · rw [← h, List.map_cons, ← hcs2]
        have hhead : toChunk ⟨(s.drop 4).take 4, ((s.drop 4).drop 4).take n,
            be32 ((((s.drop 4).drop 4).drop n).take 4)⟩ =
            { length := n, type := decodeAsciiReplace ((s.drop 4).take 4),
              data := ((s.drop 4).drop 4).take n,
              crc := be32 ((((s.drop 4).drop 4).drop n).take 4) } := by
          simp only [toChunk, PNGChunk.mk.injEq, and_true, true_and]
          exact hdatalen
        rw [hhead]
      · intro rc hmem
        rcases List.mem_cons.mp hmem with hmem | hmem
        · subst hmem
          refine ⟨⟨htb4, ?_, ?_⟩, htbbytes, hdatabytes⟩
          · rw [hdatalen, hn]
            exact be32_lt (s.take 4) hlb4 hlbbytes
          · exact g5
        · exact hgood2 rc hmem

/-- A successful chunk-loop run means the input was exactly a concatenation
of well-formed serialized chunk records. -/
lemma readChunksLoop_sound {s : List Nat} {cs : List PNGChunk}
    (hb : ∀ b ∈ s, b < 256) (h : readChunksLoop s = .ok cs) :
    ∃ rcs : List RawChunk,
      s = (rcs.map rawBytes).flatten ∧ cs = rcs.map toChunk ∧ ∀ rc ∈ rcs, GoodRaw rc :=
  readChunksLoop_sound_aux s.length s (le_refl _) cs hb h

/-! ## ASCII decode / encode lemmas -/

lemma toNat_ofNat_lt : ∀ b, b < 128 → (Char.ofNat b).toNat = b := by decide

lemma toNat_replacement : (Char.ofNat 65533).toNat = 65533 := by decide

lemma decode_data (bs : List Nat) : (decodeAsciiReplace bs).data =
    bs.map (fun b => if b < 128 then Char.ofNat b else Char.ofNat 65533) := rfl

lemma decode_length (bs : List Nat) : (decodeAsciiReplace bs).data.length = bs.length := by
  rw [decode_data, List.length_map]

lemma encodeAscii_decode (bs : List Nat) (h : ∀ b ∈ bs, b < 128) :
    encodeAscii (decodeAsciiReplace bs) = some bs := by
  unfold encodeAscii
  have hall : (decodeAsciiReplace bs).data.all (fun c => decide (c.toNat < 128)) = true := by
    rw [decode_data, List.all_eq_true]
    intro c hc
    obtain ⟨b, hb, rfl⟩ := List.mem_map.mp hc
    rw [if_pos (h b hb)]
    simpa using by rw [toNat_ofNat_lt b (h b hb)]; exact h b hb
  rw [if_pos hall, decode_data, List.map_map]
  have : bs.map (Char.toNat ∘ fun b => if b < 128 then Char.ofNat b else Char.ofNat 65533) =
      bs.map id := by
    apply List.map_congr_left
    intro b hb
    simp only [Function.comp_apply, if_pos (h b hb), id_eq]
    exact toNat_ofNat_lt b (h b hb)
  rw [this, List.map_id]

lemma decode_ascii_bytes (bs : List Nat)
    (h : ∀ c ∈ (decodeAsciiReplace bs).data, c.toNat < 128) : ∀ b ∈ bs, b < 128 := by
  intro b hb
  by_contra hge
  push_neg at hge
  have hmem : Char.ofNat 65533 ∈ (decodeAsciiReplace bs).data := by
    rw [decode_data]
    exact List.mem_map.mpr ⟨b, hb, by rw [if_neg (by omega)]⟩
  have := h _ hmem
  rw [toNat_replacement] at this
  omega

lemma decChar_eq (a w : Nat) (hw : w < 128)
    (h : (if a < 128 then Char.ofNat a else Char.ofNat 65533) = Char.ofNat w) : a = w := by
  by_cases ha : a < 128
  · rw [if_pos ha] at h
    have h2 := congrArg Char.toNat h
    rw [toNat_ofNat_lt a ha, toNat_ofNat_lt w hw] at h2
    exact h2
  · rw [if_neg ha] at h
    have h2 := congrArg Char.toNat h
    rw [toNat_replacement, toNat_ofNat_lt w hw] at h2
    omega

lemma decode_inj_ascii (tb ws : List Nat) (hw : ∀ b ∈ ws, b < 128)
    (h : decodeAsciiReplace tb = decodeAsciiReplace ws) : tb = ws := by
  have hdata : tb.map (fun b => if b < 128 then Char.ofNat b else Char.ofNat 65533) =
      ws.map (fun b => if b < 128 then Char.ofNat b else Char.ofNat 65533) :=
    congrArg String.data h
  induction tb generalizing ws with
  | nil =>
    rcases ws with _ | ⟨w, ws⟩
    · rfl
    · simp at hdata
  | cons a tb ih =>
    rcases ws with _ | ⟨w, ws⟩
    · simp at hdata
    · simp only [List.map_cons, List.cons.injEq] at hdata
      obtain ⟨h1, h2⟩ := hdata
      have hw0 := hw w (by simp)
      rw [if_pos hw0] at h1
      have ha := decChar_eq a w hw0 h1
      subst ha
      have hrest := ih ws (fun b hb => hw b (by simp [hb]))
        (by unfold decodeAsciiReplace; exact congrArg String.mk h2) h2
      rw [hrest]

lemma decode_mem_iff (tb : List Nat) (wss : List (List Nat))
    (hw : ∀ ws ∈ wss, ∀ b ∈ ws, b < 128) :
    decodeAsciiReplace tb ∈ wss.map decodeAsciiReplace ↔ tb ∈ wss := by
  constructor
  · intro h
    obtain ⟨ws, hmem, heq⟩ := List.mem_map.mp h
    rw [decode_inj_ascii tb ws (hw ws hmem) heq.symm]
    exact hmem
  · intro h
    exact List.mem_map_of_mem _ h

/-! ## Writer lemmas -/

lemma writeChunkBytes_toChunk (rc : RawChunk) (hvalid : ValidRaw rc)
    (hascii : ∀ b ∈ rc.tb, b < 128) :
    writeChunkBytes (toChunk rc) = .ok (rawBytes rc) := by
  obtain ⟨htb, hlen, hcrc⟩ := hvalid
  have e1 : to_bytes4 (toChunk rc).length = some (bytes4 rc.data.length) := by
    unfold to_bytes4 toChunk
    rw [if_pos hlen]
    rfl
  have e2 : encodeAscii (toChunk rc).type = some rc.tb := encodeAscii_decode rc.tb hascii
  have e3 : to_bytes4 (toChunk rc).crc = some (bytes4 rc.crc) := by
    unfold to_bytes4 toChunk
    rw [if_pos (by rw [hcrc]; exact compute_crc_lt _ _)]
    rfl
  unfold writeChunkBytes
  rw [e1, e2, e3]
  rfl

lemma writeChunksLoop_toChunk (rcs : List RawChunk) (hvalid : ∀ rc ∈ rcs, ValidRaw rc)
    (hascii : ∀ rc ∈ rcs, ∀ b ∈ rc.tb, b < 128) :
    writeChunksLoop (rcs.map toChunk) = .ok (rcs.map rawBytes).flatten := by
  induction rcs with
  | nil => rfl
  | cons rc rcs ih =>
    simp only [List.map_cons, writeChunksLoop]
    rw [writeChunkBytes_toChunk rc (hvalid rc (by simp)) (hascii rc (by simp))]
    rw [ih (fun x hx => hvalid x (by simp [hx])) (fun x hx => hascii x (by simp [hx]))]
    simp [List.flatten_cons]

lemma write_png_toChunk (rcs : List RawChunk) (hvalid : ∀ rc ∈ rcs, ValidRaw rc)
    (hascii : ∀ rc ∈ rcs, ∀ b ∈ rc.tb, b < 128) :
    write_png_chunks (rcs.map toChunk) = .ok (serializePNG rcs) := by
  unfold write_png_chunks serializePNG
  rw [writeChunksLoop_toChunk rcs hvalid hascii]
  rfl

/-! ## Top-level reader lemmas -/

lemma sig_length : PNG_SIGNATURE.length = 8 := rfl

lemma read_png_append (rest : List Nat) :
    read_png_chunks (PNG_SIGNATURE ++ rest) = readChunksLoop rest := by
  unfold read_png_chunks
  rw [List.take_left' sig_length, if_pos rfl, List.drop_left' sig_length]

lemma read_png_serialized (rcs : List RawChunk) (h : ∀ rc ∈ rcs, ValidRaw rc) :
    read_png_chunks (serializePNG rcs) = .ok (rcs.map toChunk) := by
  unfold serializePNG
  rw [read_png_append]
  exact readChunksLoop_serialized rcs h

lemma read_sig : read_png_chunks PNG_SIGNATURE = .ok [] := by
  have h := read_png_serialized [] (by simp)
  simpa [serializePNG] using h

lemma read_png_sound {s : List Nat} {cs : List PNGChunk}
    (hb : ∀ b ∈ s, b < 256) (h : read_png_chunks s = .ok cs) :
    ∃ rcs : List RawChunk,
      s = serializePNG rcs ∧ cs = rcs.map toChunk ∧ ∀ rc ∈ rcs, GoodRaw rc := by
  unfold read_png_chunks at h
  by_cases hsig : s.take 8 = PNG_SIGNATURE
  · rw [if_pos hsig] at h
    obtain ⟨rcs, h1, h2, h3⟩ := readChunksLoop_sound
      (fun b hb2 => hb b (List.drop_subset _ _ hb2)) h
    refine ⟨rcs, ?_, h2, h3⟩
    unfold serializePNG
    rw [← h1, ← hsig, List.take_append_drop]
  · rw [if_neg hsig] at h
    simp at h

lemma readChunksLoop_skip (pre : List RawChunk) (t : List Nat)
    (h : ∀ rc ∈ pre, ValidRaw rc) :
    readChunksLoop ((pre.map rawBytes).flatten ++ t) =
      (readChunksLoop t).map (fun cs => pre.map toChunk ++ cs) := by
  induction pre with
  | nil =>
    simp only [List.map_nil, List.flatten_nil, List.nil_append]
    cases readChunksLoop t <;> simp [Except.map]
  | cons rc pre ih =>
    simp only [List.map_cons, List.flatten_cons, List.append_assoc]
    rw [readChunksLoop_valid_cons rc _ (h rc (by simp))]
    rw [ih (fun x hx => h x (by simp [hx]))]
    cases readChunksLoop t <;> simp [Except.map]

/-! ## Filter lemmas -/

lemma core_drop_disjoint (t : String) (hc : t ∈ CORE_CHUNKS) (hd : t ∈ DROP_CHUNKS) :
    False := by
  simp only [CORE_CHUNKS, List.mem_cons, List.not_mem_nil, or_false] at hc
  rcases hc with rfl | rfl | rfl | rfl <;> exact absurd hd (by decide)

/-! ## Claim theorems -/

/-- C2: `filter_chunks` keeps exactly the chunks whose type is in `CORE_CHUNKS`
or in neither fixed set (preserving order, modifying nothing), discards exactly
those in `DROP_CHUNKS`, and counts the discarded chunks; in particular the
`[IHDR, tEXt, IDAT, tIME, IEND]` scenario yields `[IHDR, IDAT, IEND]` with 2
removed. -/
theorem filter_chunks_classification :
    (∀ cs : List PNGChunk,
      (filter_chunks cs).1 = cs.filter (fun c => decide (c.type ∈ CORE_CHUNKS) ||
        (!decide (c.type ∈ CORE_CHUNKS) && !decide (c.type ∈ DROP_CHUNKS))) ∧
      (filter_chunks cs).2 = (cs.filter (fun c => decide (c.type ∈ DROP_CHUNKS))).length) ∧
    (∀ c1 c2 c3 c4 c5 : PNGChunk, c1.type = "IHDR" → c2.type = "tEXt" →
      c3.type = "IDAT" → c4.type = "tIME" → c5.type = "IEND" →
      filter_chunks [c1, c2, c3, c4, c5] = ([c1, c3, c5], 2)) := by
  constructor
  · intro cs
    induction cs with
    | nil => exact ⟨rfl, rfl⟩
    | cons c cs ih =>
      obtain ⟨ih1, ih2⟩ := ih
      by_cases hc : c.type ∈ CORE_CHUNKS
      · have hd : c.type ∉ DROP_CHUNKS := fun hd => core_drop_disjoint _ hc hd
        refine ⟨?_, ?_⟩
        · simp [filter_chunks, List.filter_cons, hc, ih1]
        · simp [filter_chunks, List.filter_cons, hc, hd, ih2]
      · by_cases hd : c.type ∈ DROP_CHUNKS
        · refine ⟨?_, ?_⟩
          · simp [filter_chunks, List.filter_cons, hc, hd, ih1]
          · simp [filter_chunks, List.filter_cons, hc, hd, ih2]
        · refine ⟨?_, ?_⟩
          · simp [filter_chunks, List.filter_cons, hc, hd, ih1]
          · simp [filter_chunks, List.filter_cons, hc, hd, ih2]
  · intro c1 c2 c3 c4 c5 h1 h2 h3 h4 h5
    simp [filter_chunks, h1, h2, h3, h4, h5, CORE_CHUNKS, DROP_CHUNKS]

/-- C2 witness: the scenario instantiated with concrete chunks. -/
theorem filter_chunks_classification_witness :
    filter_chunks [⟨13, "IHDR", [], 1⟩, ⟨2, "tEXt", [104, 105], 2⟩, ⟨1, "IDAT", [5], 3⟩,
        ⟨7, "tIME", [], 4⟩, ⟨0, "IEND", [], 5⟩] =
      ([⟨13, "IHDR", [], 1⟩, ⟨1, "IDAT", [5], 3⟩, ⟨0, "IEND", [], 5⟩], 2) :=
  filter_chunks_classification.2 _ _ _ _ _ rfl rfl rfl rfl rfl

/-- C4: filtering an already-filtered chunk list keeps it unchanged and
removes nothing. -/
theorem filter_chunks_idempotent (cs : List PNGChunk) :
    filter_chunks (filter_chunks cs).1 = ((filter_chunks cs).1, 0) := by
  induction cs with
  | nil => rfl
  | cons c cs ih =>
    by_cases hc : c.type ∈ CORE_CHUNKS
    · simp only [filter_chunks, if_pos hc, ih]
    · by_cases hd : c.type ∈ DROP_CHUNKS
      · simp only [filter_chunks, if_neg hc, if_pos hd]
        exact ih
      · simp only [filter_chunks, if_neg hc, if_neg hd, ih]

/-- C9: classifying by the decoded type string (as `filter_chunks` does after
the reader's replacement decoding) agrees with classifying the raw 4-byte
type against the byte encodings of the two sets, for every raw type; and
`filter_chunks` on a single chunk acts according to `classifyType`. -/
theorem classification_equivalence :
    (∀ c : PNGChunk, filter_chunks [c] =
      if classifyType c.type = ChunkClass.drop then ([], 1) else ([c], 0)) ∧
    (∀ tb : List Nat, classifyType (decodeAsciiReplace tb) = classifyRawType tb) := by
  constructor
  · intro c
    unfold classifyType
    by_cases hc : c.type ∈ CORE_CHUNKS
    · have hd : c.type ∉ DROP_CHUNKS := fun hd => core_drop_disjoint _ hc hd
      simp [filter_chunks, hc, hd]
    · by_cases hd : c.type ∈ DROP_CHUNKS
      · simp [filter_chunks, hc, hd]
      · simp [filter_chunks, hc, hd]
  · intro tb
    unfold classifyType classifyRawType
    rw [show CORE_CHUNKS = CORE_CHUNK_BYTES.map decodeAsciiReplace from by decide,
      show DROP_CHUNKS = DROP_CHUNK_BYTES.map decodeAsciiReplace from by decide]
    by_cases h1 : tb ∈ CORE_CHUNK_BYTES
    · rw [if_pos ((decode_mem_iff tb _ (by decide)).mpr h1), if_pos h1]
    · rw [if_neg (fun hc => h1 ((decode_mem_iff tb _ (by decide)).mp hc)), if_neg h1]
      by_cases h2 : tb ∈ DROP_CHUNK_BYTES
      · rw [if_pos ((decode_mem_iff tb _ (by decide)).mpr h2), if_pos h2]
      · rw [if_neg (fun hc => h2 ((decode_mem_iff tb _ (by decide)).mp hc)), if_neg h2]

/-- C1 (amended): a byte stream that the reader parses successfully, and whose
decoded chunk types are pure ASCII, is reproduced byte-identically by the
writer (no CRC recomputation happens anywhere on this path). -/
theorem round_trip_identity (s : List Nat) (cs : List PNGChunk)
    (hbytes : ∀ b ∈ s, b < 256)
    (hread : read_png_chunks s = .ok cs)
    (hascii : ∀ c ∈ cs, ∀ ch ∈ c.type.data, ch.toNat < 128) :
    write_png_chunks cs = .ok s := by
  obtain ⟨rcs, rfl, rfl, hgood⟩ := read_png_sound hbytes hread
  refine write_png_toChunk rcs (fun rc h => (hgood rc h).1) ?_
  intro rc hmem
  apply decode_ascii_bytes
  intro ch hch
  exact hascii (toChunk rc) (List.mem_map_of_mem _ hmem) ch hch

/-- C1 witness: the empty PNG (signature only) round-trips. -/
theorem round_trip_identity_witness :
    read_png_chunks PNG_SIGNATURE = .ok [] ∧
      write_png_chunks [] = .ok PNG_SIGNATURE :=
  ⟨read_sig, round_trip_identity PNG_SIGNATURE [] (by decide) read_sig (by simp)⟩

/-- C1 counterexample: a stream with a non-ASCII type byte (0xC3) and a
correct CRC is read successfully, but the writer fails to re-encode the
replacement-decoded type, so no byte-identical output is produced. -/
theorem round_trip_identity_cex :
    read_png_chunks [137, 80, 78, 71, 13, 10, 26, 10, 0, 0, 0, 0, 195, 66, 67, 68,
        156, 71, 94, 21] =
      .ok [⟨0, decodeAsciiReplace [195, 66, 67, 68], [], 2621922837⟩] ∧
    write_png_chunks [⟨0, decodeAsciiReplace [195, 66, 67, 68], [], 2621922837⟩] =
      .error (.encodeError (decodeAsciiReplace [195, 66, 67, 68])) ∧
    write_png_chunks [⟨0, decodeAsciiReplace [195, 66, 67, 68], [], 2621922837⟩] ≠
      .ok [137, 80, 78, 71, 13, 10, 26, 10, 0, 0, 0, 0, 195, 66, 67, 68,
        156, 71, 94, 21] := by
  have hw : write_png_chunks [⟨0, decodeAsciiReplace [195, 66, 67, 68], [], 2621922837⟩] =
      .error (.encodeError (decodeAsciiReplace [195, 66, 67, 68])) := rfl
  refine ⟨?_, hw, by rw [hw]; simp⟩
  have hvalid : ∀ rc ∈ [(⟨[195, 66, 67, 68], [], 2621922837⟩ : RawChunk)], ValidRaw rc := by
    intro rc hmem
    rw [List.mem_singleton] at hmem
    subst hmem
    exact ⟨by decide, by decide, by decide⟩
  have h := read_png_serialized [⟨[195, 66, 67, 68], [], 2621922837⟩] hvalid
  exact h

/-- C10: there is an input the reader accepts (non-ASCII raw type byte 0x80
with a correct CRC over the raw bytes) on which the writer then fails with an
encoding error — a `WriteError`, not one of the reader's error kinds nor an
I/O failure. -/
theorem non_ascii_type_write_failure :
    read_png_chunks [137, 80, 78, 71, 13, 10, 26, 10, 0, 0, 0, 0, 128, 65, 65, 65,
        85, 252, 129, 146] =
      .ok [⟨0, decodeAsciiReplace [128, 65, 65, 65], [], 1442611602⟩] ∧
    write_png_chunks [⟨0, decodeAsciiReplace [128, 65, 65, 65], [], 1442611602⟩] =
      .error (.encodeError (decodeAsciiReplace [128, 65, 65, 65])) := by
  refine ⟨?_, rfl⟩
  have hvalid : ∀ rc ∈ [(⟨[128, 65, 65, 65], [], 1442611602⟩ : RawChunk)], ValidRaw rc := by
    intro rc hmem
    rw [List.mem_singleton] at hmem
    subst hmem
    exact ⟨by decide, by decide, by decide⟩
  exact read_png_serialized [⟨[128, 65, 65, 65], [], 1442611602⟩] hvalid

/-- C3: in any valid PNG stream, substituting a different byte for any single
byte of any chunk's data region, while keeping the stored CRC and all other
bytes unchanged, makes the reader fail with a CRC-mismatch error that carries
the recomputed (expected) and the stored CRC — which necessarily differ — so
no chunk list is returned. -/
theorem crc_detection (pre suf : List RawChunk) (tb dpre dsuf : List Nat) (x y : Nat)
    (hpre : ∀ rc ∈ pre, ValidRaw rc)
    (htb : tb.length = 4) (htbb : ∀ b ∈ tb, b < 256)
    (hdpre : ∀ b ∈ dpre, b < 256) (hdsuf : ∀ b ∈ dsuf, b < 256)
    (hx : x < 256) (hy : y < 256) (hxy : y ≠ x)
    (hlen : dpre.length + dsuf.length + 1 < 4294967296) :
    read_png_chunks (serializePNG (pre ++
        ⟨tb, dpre ++ y :: dsuf, compute_crc tb (dpre ++ x :: dsuf)⟩ :: suf)) =
      .error (.crcMismatch (decodeAsciiReplace tb)
        (compute_crc tb (dpre ++ y :: dsuf)) (compute_crc tb (dpre ++ x :: dsuf))) ∧
    compute_crc tb (dpre ++ y :: dsuf) ≠ compute_crc tb (dpre ++ x :: dsuf) := by
  have hne : compute_crc tb (dpre ++ y :: dsuf) ≠ compute_crc tb (dpre ++ x :: dsuf) :=
    compute_crc_single_byte htbb hdpre hdsuf hy hx hxy
  refine ⟨?_, hne⟩
  unfold serializePNG
  rw [read_png_append]
  simp only [List.map_append, List.flatten_append, List.map_cons, List.flatten_cons]
  rw [readChunksLoop_skip pre _ hpre]
  have hgrp : rawBytes ⟨tb, dpre ++ y :: dsuf, compute_crc tb (dpre ++ x :: dsuf)⟩ ++
      (suf.map rawBytes).flatten =
      bytes4 (dpre ++ y :: dsuf).length ++ (tb ++ ((dpre ++ y :: dsuf) ++
        (bytes4 (compute_crc tb (dpre ++ x :: dsuf)) ++ (suf.map rawBytes).flatten))) := by
    simp [rawBytes, List.append_assoc]
  rw [hgrp, readChunksLoop_step tb (dpre ++ y :: dsuf)
      (compute_crc tb (dpre ++ x :: dsuf)) _ htb
      (by simp only [List.length_append, List.length_cons]; omega)
      (compute_crc_lt _ _)]
  rw [if_pos (Ne.symm hne)]
  rfl

/-- C3 witness: a one-chunk stream (IHDR with data byte 7) whose data byte is
replaced by 8 while the stored CRC stays the one computed for 7. -/
theorem crc_detection_witness :
    read_png_chunks [137, 80, 78, 71, 13, 10, 26, 10, 0, 0, 0, 1, 73, 72, 68, 82, 8,
        172, 27, 50, 158] =
      .error (.crcMismatch (decodeAsciiReplace [73, 72, 68, 82]) 1017392911 2887463582) ∧
    (1017392911 : Nat) ≠ 2887463582 := by
  have h := crc_detection [] [] [73, 72, 68, 82] [] [] 7 8 (by simp) (by decide)
    (by decide) (by decide) (by decide) (by decide) (by decide) (by decide) (by norm_num)
  simp only [List.nil_append] at h
  rw [show compute_crc [73, 72, 68, 82] [7] = 2887463582 from by decide,
    show compute_crc [73, 72, 68, 82] [8] = 1017392911 from by decide] at h
  exact h

/-- C5: reading terminates successfully exactly at a chunk boundary: the
signature alone yields the empty chunk list with no error; any successful
loop run consumed the stream in whole 12+length chunk records (ending with
zero bytes left); and conversely any stream that is exhausted at a chunk
boundary after valid records parses successfully — no IEND chunk is required
to be present or last. -/
theorem normal_end_of_stream :
    read_png_chunks PNG_SIGNATURE = .ok [] ∧
    (∀ (s : List Nat) (cs : List PNGChunk), (∀ b ∈ s, b < 256) →
      readChunksLoop s = .ok cs →
      s.length = (cs.map (fun c => 12 + c.data.length)).sum) ∧
    (∀ rcs : List RawChunk, (∀ rc ∈ rcs, ValidRaw rc) →
      read_png_chunks (serializePNG rcs) = .ok (rcs.map toChunk)) := by
  refine ⟨read_sig, ?_, read_png_serialized⟩
  intro s cs hb h
  obtain ⟨rcs, rfl, rfl, hgood⟩ := readChunksLoop_sound hb h
  rw [List.length_flatten, List.map_map, List.map_map]
  congr 1
  apply List.map_congr_left
  intro rc hmem
  obtain ⟨⟨htb, _, _⟩, _, _⟩ := hgood rc hmem
  simp only [Function.comp_apply, rawBytes, toChunk, List.length_append, htb]
  simp [bytes4]
  omega

/-- C5 witness: a stream whose single chunk has the non-core type `ABCD` and
no IEND parses successfully. -/
theorem normal_end_of_stream_witness :
    read_png_chunks [137, 80, 78, 71, 13, 10, 26, 10, 0, 0, 0, 0, 65, 66, 67, 68,
        219, 23, 32, 165] =
      .ok [⟨0, "ABCD", [], 3675725989⟩] := by
  have h := normal_end_of_stream.2.2 [⟨[65, 66, 67, 68], [], 3675725989⟩] (by
    intro rc hmem
    rw [List.mem_singleton] at hmem
    subst hmem
    exact ⟨by decide, by decide, by decide⟩)
  simp only [List.map_cons, List.map_nil, toChunk, List.length_nil] at h
  rw [show decodeAsciiReplace [65, 66, 67, 68] = "ABCD" from by decide] at h
  exact h

/-- C6 (amended): a stream that ends partway through any of the four chunk
fields — after any prefix of valid chunk records — fails with a truncation
error naming that field; the chunk type being read is reported only for the
data and CRC fields (it has not been read yet for the length and type
fields), and no chunk index is reported. -/
theorem truncation_diagnostics :
    (∀ (pre : List RawChunk) (t : List Nat), (∀ rc ∈ pre, ValidRaw rc) →
      t ≠ [] → t.length < 4 →
      read_png_chunks (serializePNG pre ++ t) =
        .error (.truncation .lenField none)) ∧
    (∀ (pre : List RawChunk) (n : Nat) (t : List Nat), (∀ rc ∈ pre, ValidRaw rc) →
      t.length < 4 →
      read_png_chunks (serializePNG pre ++ (bytes4 n ++ t)) =
        .error (.truncation .typeField none)) ∧
    (∀ (pre : List RawChunk) (n : Nat) (tb t : List Nat), (∀ rc ∈ pre, ValidRaw rc) →
      tb.length = 4 → n < 4294967296 → t.length < n →
      read_png_chunks (serializePNG pre ++ (bytes4 n ++ (tb ++ t))) =
        .error (.truncation .dataField (some (decodeAsciiReplace tb)))) ∧
    (∀ (pre : List RawChunk) (tb d t : List Nat), (∀ rc ∈ pre, ValidRaw rc) →
      tb.length = 4 → d.length < 4294967296 → t.length < 4 →
      read_png_chunks (serializePNG pre ++ (bytes4 d.length ++ (tb ++ (d ++ t)))) =
        .error (.truncation .crcField (some (decodeAsciiReplace tb)))) := by
  refine ⟨?_, ?_, ?_, ?_⟩
  · intro pre t hpre h0 h4
    unfold serializePNG
    rw [List.append_assoc, read_png_append, readChunksLoop_skip pre _ hpre,
      readChunksLoop_trunc_len t h0 h4]
    rfl
  · intro pre n t hpre h4
    unfold serializePNG
    rw [List.append_assoc, read_png_append, readChunksLoop_skip pre _ hpre,
      readChunksLoop_trunc_type n t h4]
    rfl
  · intro pre n tb t hpre htb hn ht
    unfold serializePNG
    rw [List.append_assoc, read_png_append, readChunksLoop_skip pre _ hpre,
      readChunksLoop_trunc_data tb t htb n hn ht]
    rfl
  · intro pre tb d t hpre htb hn ht
    unfold serializePNG
    rw [List.append_assoc, read_png_append, readChunksLoop_skip pre _ hpre,
      readChunksLoop_trunc_crc tb d t htb hn ht]
    rfl

/-- C6 witness: one stray byte after the signature is a truncation in the
length field. -/
theorem truncation_diagnostics_witness :
    read_png_chunks [137, 80, 78, 71, 13, 10, 26, 10, 0] =
      .error (.truncation .lenField none) := by
  have h := truncation_diagnostics.1 [] [0] (by simp) (by simp) (by simp)
  exact h

/-- C6 counterexample: the claim as stated is false — a stream truncated in
the length field raises an error that identifies neither a chunk index nor a
chunk type (the error's chunk-identity payload is `none`). -/
theorem truncation_diagnostics_cex :
    ¬ ∃ (f : FieldKind) (ct : String),
      read_png_chunks [137, 80, 78, 71, 13, 10, 26, 10, 0] =
        .error (.truncation f (some ct)) := by
  intro ⟨f, ct, hcontra⟩
  have h : read_png_chunks (PNG_SIGNATURE ++ [0]) =
      .error (.truncation .lenField none) := by
    rw [read_png_append]
    exact readChunksLoop_trunc_len [0] (by simp) (by simp)
  rw [show ([137, 80, 78, 71, 13, 10, 26, 10, 0] : List Nat) = PNG_SIGNATURE ++ [0]
    from rfl, h] at hcontra
  simp at hcontra

/-- C7: every chunk a successful read returns has `length` equal to its data
size, a CRC below `2^32` that is the CRC-32 (polynomial 0xEDB88320) of the raw
type bytes followed by the data, and a 4-character decoded type. -/
theorem reader_chunk_invariant (s : List Nat) (cs : List PNGChunk)
    (hb : ∀ b ∈ s, b < 256) (h : read_png_chunks s = .ok cs) :
    ∀ c ∈ cs, c.length = c.data.length ∧ c.crc < 4294967296 ∧
      c.type.data.length = 4 ∧
      ∃ tb : List Nat, tb.length = 4 ∧ c.type = decodeAsciiReplace tb ∧
        c.crc = compute_crc tb c.data := by
  obtain ⟨rcs, rfl, rfl, hgood⟩ := read_png_sound hb h
  intro c hc
  obtain ⟨rc, hmem, rfl⟩ := List.mem_map.mp hc
  obtain ⟨⟨htb, hlen, hcrc⟩, _, _⟩ := hgood rc hmem
  refine ⟨rfl, ?_, ?_, rc.tb, htb, rfl, hcrc⟩
  · rw [show (toChunk rc).crc = rc.crc from rfl, hcrc]
    exact compute_crc_lt _ _
  · rw [show (toChunk rc).type = decodeAsciiReplace rc.tb from rfl, decode_length, htb]

/-- C7 witness: the invariant holds for the single chunk of a concrete
one-IDAT-chunk stream. -/
theorem reader_chunk_invariant_witness :
    read_png_chunks [137, 80, 78, 71, 13, 10, 26, 10, 0, 0, 0, 1, 73, 68, 65, 84, 5,
        88, 82, 137, 103] =
      .ok [⟨1, "IDAT", [5], 1481804135⟩] ∧
    ((1 : Nat) = [(5 : Nat)].length ∧ (1481804135 : Nat) < 4294967296 ∧
      ("IDAT" : String).data.length = 4 ∧
      ∃ tb : List Nat, tb.length = 4 ∧ ("IDAT" : String) = decodeAsciiReplace tb ∧
        (1481804135 : Nat) = compute_crc tb [5]) := by
  have hread : read_png_chunks [137, 80, 78, 71, 13, 10, 26, 10, 0, 0, 0, 1,
      73, 68, 65, 84, 5, 88, 82, 137, 103] = .ok [⟨1, "IDAT", [5], 1481804135⟩] := by
    have h := read_png_serialized [⟨[73, 68, 65, 84], [5], 1481804135⟩] (by
      intro rc hmem
      rw [List.mem_singleton] at hmem
      subst hmem
      exact ⟨by decide, by decide, by decide⟩)
    simp only [List.map_cons, List.map_nil, toChunk, List.length_cons,
      List.length_nil] at h
    rw [show decodeAsciiReplace [73, 68, 65, 84] = "IDAT" from by decide] at h
    exact h
  have hinv := reader_chunk_invariant _ _ (by decide) hread
    ⟨1, "IDAT", [5], 1481804135⟩ (by simp)
  exact ⟨hread, hinv⟩

/-! ## Writer size lemmas (claim C8) -/

lemma writeChunkBytes_ascii (c : PNGChunk)
    (hascii : ∀ ch ∈ c.type.data, ch.toNat < 128)
    (hlen : c.length < 4294967296) (hcrc : c.crc < 4294967296) :
    writeChunkBytes c =
      .ok (bytes4 c.length ++ c.type.data.map Char.toNat ++ c.data ++ bytes4 c.crc) := by
  have e1 : to_bytes4 c.length = some (bytes4 c.length) := by
    unfold to_bytes4
    rw [if_pos hlen]
    rfl
  have e2 : encodeAscii c.type = some (c.type.data.map Char.toNat) := by
    unfold encodeAscii
    rw [if_pos (List.all_eq_true.mpr fun ch hch => by simpa using hascii ch hch)]
  have e3 : to_bytes4 c.crc = some (bytes4 c.crc) := by
    unfold to_bytes4
    rw [if_pos hcrc]
    rfl
  unfold writeChunkBytes
  rw [e1, e2, e3]

lemma writeChunksLoop_size (cs : List PNGChunk)
    (h : ∀ c ∈ cs, c.length = c.data.length ∧ c.type.data.length = 4 ∧
      (∀ ch ∈ c.type.data, ch.toNat < 128) ∧ c.length < 4294967296 ∧
      c.crc < 4294967296) :
    ∃ body, writeChunksLoop cs = .ok body ∧
      body.length = (cs.map (fun c => 12 + c.length)).sum := by
  induction cs with
  | nil => exact ⟨[], rfl, rfl⟩
  | cons c cs ih =>
    obtain ⟨hc1, hc2, hc3, hc4, hc5⟩ := h c (by simp)
    obtain ⟨body, hb1, hb2⟩ := ih (fun x hx => h x (by simp [hx]))
    refine ⟨(bytes4 c.length ++ c.type.data.map Char.toNat ++ c.data ++ bytes4 c.crc) ++
      body, ?_, ?_⟩
    · simp only [writeChunksLoop]
      rw [writeChunkBytes_ascii c hc3 hc4 hc5, hb1]
    · simp only [List.length_append, List.length_map, List.map_cons, List.sum_cons,
        hb2, hc2, bytes4, List.length_cons, List.length_nil]
      omega

/-- C8: for chunk lists whose chunks have `length = len(data)`, a 4-character
ASCII type, and 32-bit length and CRC values (the invariants the reader
guarantees for chunks parsed from an ASCII-typed byte stream), the writer
succeeds and the written size is `8 + Σ (12 + length)`. -/
theorem writer_size (cs : List PNGChunk)
    (h : ∀ c ∈ cs, c.length = c.data.length ∧ c.type.data.length = 4 ∧
      (∀ ch ∈ c.type.data, ch.toNat < 128) ∧ c.length < 4294967296 ∧
      c.crc < 4294967296) :
    ∃ out, write_png_chunks cs = .ok out ∧
      out.length = 8 + (cs.map (fun c => 12 + c.length)).sum := by
  obtain ⟨body, h1, h2⟩ := writeChunksLoop_size cs h
  refine ⟨PNG_SIGNATURE ++ body, ?_, ?_⟩
  · unfold write_png_chunks
    rw [h1]
    rfl
  · simp [List.length_append, sig_length, h2]

/-- C8 witness: writing a single 1-byte IDAT chunk produces 21 bytes,
which is `8 + (12 + 1)`. -/
theorem writer_size_witness :
    write_png_chunks [⟨1, "IDAT", [5], 7⟩] =
      .ok [137, 80, 78, 71, 13, 10, 26, 10, 0, 0, 0, 1, 73, 68, 65, 84, 5, 0, 0, 0, 7] ∧
    (21 : Nat) = 8 + (([⟨1, "IDAT", [5], 7⟩] : List PNGChunk).map
      (fun c => 12 + c.length)).sum := by
  have e : write_png_chunks [⟨1, "IDAT", [5], 7⟩] =
      .ok [137, 80, 78, 71, 13, 10, 26, 10, 0, 0, 0, 1, 73, 68, 65, 84, 5, 0, 0, 0, 7] :=
    rfl
  obtain ⟨out, h1, h2⟩ := writer_size [⟨1, "IDAT", [5], 7⟩] (by
    intro c hc
    rw [List.mem_singleton] at hc
    subst hc
    exact ⟨rfl, rfl, by decide, by norm_num, by norm_num⟩)
  have hout : out = [137, 80, 78, 71, 13, 10, 26, 10, 0, 0, 0, 1, 73, 68, 65, 84, 5,
      0, 0, 0, 7] := by
    have h3 := h1.symm.trans e
    exact (Except.ok.injEq _ _).mp h3
  refine ⟨e, ?_⟩
  rw [← h2, hout]
  rfl
